import Mathlib

/-!
Shallow embedding of the streaming-ingestion and session-state engine of the
HackWave frontend (`App.tsx`): the frame decoder (chunk buffering and line
splitting inside `handleSubmit`), the event parser (`data: ` marker plus JSON
decode of `{type, content}` frames), the conversation reducer
(`handleStreamEvent`), and the session controls (`handleSubmit` prologue,
`handleCancel`, `handleNewAnalysis`), together with the timeline simulator's
scheduled callbacks. Theorems settle the frozen claims about this code.
-/

namespace HackWave

/-- `ProcessedEvent` from `ActivityTimeline`: one timeline progress entry with
a `title` and a `data` detail string. -/
structure ProcessedEvent where
  title : String
  data : String
deriving DecidableEq, Repr

/-- The `streamingMetadata` React state: a partial mapping from the fixed set
of analysis-section tags to the last payload received for that tag. -/
structure StreamingMetadata where
  domain_analysis : Option String := none
  ux_analysis : Option String := none
  technical_analysis : Option String := none
  revenue_analysis : Option String := none
  moderator_aggregation : Option String := none
  final_answer : Option String := none
deriving DecidableEq, Repr

/-- Metadata attached to an assistant `Message` when `complete` fires: the
streaming sections accumulated so far plus `processing_time: 0` and
`query_type: "general"`. -/
structure MessageMetadata where
  sections : StreamingMetadata
  processing_time : Nat
  query_type : String
deriving DecidableEq, Repr

/-- `Message.type` in the source: `"human"` or `"ai"`. -/
inductive Role where
  | human
  | ai
deriving DecidableEq, Repr

/-- The `Message` interface: one conversation turn. -/
structure Message where
  type : Role
  content : String
  id : String
  metadata : Option MessageMetadata := none
deriving DecidableEq, Repr

/-- A parsed stream event: `interface StreamEvent { type: string; content: string }`. -/
structure StreamEvent where
  type : String
  content : String
deriving DecidableEq, Repr

/-- The React state of `App`: messages, loading flag, live timeline, map of
historical timelines keyed by assistant message id, error, accumulated
streaming text, and streaming metadata. The historical map (`Record<string,
ProcessedEvent[]>`) is embedded as an association list in insertion order. -/
structure SessionState where
  messages : List Message
  isLoading : Bool
  processedEventsTimeline : List ProcessedEvent
  historicalActivities : List (String × List ProcessedEvent)
  error : Option String
  currentStreamingMessage : String
  streamingMetadata : StreamingMetadata
deriving DecidableEq, Repr

/-- The initial React state: all `useState` initial values. -/
def initialState : SessionState :=
  { messages := []
    isLoading := false
    processedEventsTimeline := []
    historicalActivities := []
    error := none
    currentStreamingMessage := ""
    streamingMetadata := {} }

/-- JS object-spread update `{...prev, [k]: v}` on a string-keyed record:
overwrite the binding in place if the key exists, otherwise append it. -/
def setKey (m : List (String × List ProcessedEvent)) (k : String)
    (v : List ProcessedEvent) : List (String × List ProcessedEvent) :=
  if m.any (fun p => p.1 = k) then
    m.map (fun p => if p.1 = k then (k, v) else p)
  else
    m ++ [(k, v)]

/-- The conversation reducer `handleStreamEvent`, as a pure fold step.
`now` stands for the ambient `Date.now()` clock read when the event is
handled; only the `complete` branch consults it (`Date.now() + 1` becomes the
assistant message id). The switch has no default case, so an unrecognized
`type` leaves the state unchanged. -/
def handleStreamEvent (now : Nat) (s : SessionState) (e : StreamEvent) : SessionState :=
  if e.type = "domain_expert" then
    { s with
      streamingMetadata := { s.streamingMetadata with domain_analysis := some e.content }
      currentStreamingMessage :=
        s.currentStreamingMessage ++ "\n\n**Domain Expert Analysis:**\n" ++ e.content }
  else if e.type = "ux_ui_specialist" then
    { s with
      streamingMetadata := { s.streamingMetadata with ux_analysis := some e.content }
      currentStreamingMessage :=
        s.currentStreamingMessage ++ "\n\n**UX/UI Specialist Analysis:**\n" ++ e.content }
  else if e.type = "technical_architect" then
    { s with
      streamingMetadata := { s.streamingMetadata with technical_analysis := some e.content }
      currentStreamingMessage :=
        s.currentStreamingMessage ++ "\n\n**Technical Architect Analysis:**\n" ++ e.content }
  else if e.type = "revenue_model_analyst" then
    { s with
      streamingMetadata := { s.streamingMetadata with revenue_analysis := some e.content }
      currentStreamingMessage :=
        s.currentStreamingMessage ++ "\n\n**Revenue Model Analyst Analysis:**\n" ++ e.content }
  else if e.type = "moderator_aggregation" then
    { s with
      streamingMetadata := { s.streamingMetadata with moderator_aggregation := some e.content }
      currentStreamingMessage :=
        s.currentStreamingMessage ++ "\n\n**Moderator Aggregation:**\n" ++ e.content }
  else if e.type = "final_answer" then
    { s with
      streamingMetadata := { s.streamingMetadata with final_answer := some e.content }
      currentStreamingMessage :=
        s.currentStreamingMessage ++ "\n\n**Final Answer:**\n" ++ e.content }
  else if e.type = "message" then
    { s with currentStreamingMessage := e.content }
  else if e.type = "complete" then
    let aiMessage : Message :=
      { type := Role.ai
        content := if s.currentStreamingMessage = "" then "Analysis completed"
                   else s.currentStreamingMessage
        id := Nat.repr (now + 1)
        metadata := some
          { sections := s.streamingMetadata
            processing_time := 0
            query_type := "general" } }
    { s with
      messages := s.messages ++ [aiMessage]
      historicalActivities := setKey s.historicalActivities aiMessage.id s.processedEventsTimeline }
  else if e.type = "error" then
    { s with error := some e.content }
  else
    s

/-- Folding a list of stream events through `handleStreamEvent`, arrival order. -/
def foldEvents (now : Nat) (s : SessionState) (evs : List StreamEvent) : SessionState :=
  evs.foldl (handleStreamEvent now) s

/-- Characters removed by JavaScript `String.prototype.trim` (WhiteSpace and
LineTerminator code points). -/
def isJsSpace (c : Char) : Bool :=
  c ∈ [' ', '\t', '\n', '\r', '\x0b', '\x0c', ' ', ' ', ' ',
       ' ', ' ', ' ', ' ', ' ', ' ', ' ',
       ' ', ' ', ' ', ' ', ' ', ' ', ' ',
       '　', '﻿']

/-- JavaScript `text.trim()`: strip leading and trailing whitespace. -/
def jsTrim (text : String) : String :=
  String.mk (((text.data.dropWhile isJsSpace).reverse.dropWhile isJsSpace).reverse)

/-- The synchronous state prologue of `handleSubmit` (lines 67–82): reject
blank input (`if (!submittedInputValue.trim()) return`), otherwise clear the
live timeline, set loading, clear error, clear the streaming accrual, and
append the user message with id `Date.now().toString()` (`now`). -/
def handleSubmitStart (s : SessionState) (text : String) (now : Nat) : SessionState :=
  if jsTrim text = "" then s
  else
    { s with
      processedEventsTimeline := []
      isLoading := true
      error := none
      currentStreamingMessage := ""
      streamingMetadata := {}
      messages := s.messages ++
        [{ type := Role.human, content := text, id := Nat.repr now, metadata := none }] }

/-- The `finally` block of `handleSubmit` (lines 175–177), run when the stream
loop exits on any path: `setIsLoading(false)`. -/
def finishRequest (s : SessionState) : SessionState :=
  { s with isLoading := false }

/-- `handleCancel` (lines 249–255): stop loading, clear live timeline, clear
error, clear streaming text and metadata. Messages and historical activities
are untouched. -/
def handleCancel (s : SessionState) : SessionState :=
  { s with
    isLoading := false
    processedEventsTimeline := []
    error := none
    currentStreamingMessage := ""
    streamingMetadata := {} }

/-- `handleNewAnalysis` (lines 257–265): clear everything. -/
def handleNewAnalysis (s : SessionState) : SessionState :=
  { s with
    messages := []
    processedEventsTimeline := []
    historicalActivities := []
    error := none
    currentStreamingMessage := ""
    streamingMetadata := {}
    isLoading := false }

/-! ## Frame decoder

The read loop of `handleSubmit` (lines 145–170): a rolling text `buffer`;
each decoded chunk is appended, the buffer is split on `'\n'`, the final
segment (`lines.pop() || ''`) is re-buffered, and only the complete lines are
handed to the line handler. At end-of-stream the loop breaks and the buffer
is dropped. Text is embedded as `List Char`. -/

/-- Split a character stream at newlines into (complete newline-terminated
lines, trailing unterminated segment). `buffer.split('\n')` returns exactly
`lines ++ [trailing]`, and the source pops the trailing element back into the
buffer, so this pair is precisely what one loop iteration computes. -/
def splitNl : List Char → List (List Char) × List Char
  | [] => ([], [])
  | c :: cs =>
    let p := splitNl cs
    if c = '\n' then ([] :: p.1, p.2)
    else
      match p.1 with
      | [] => ([], c :: p.2)
      | l :: ls => ((c :: l) :: ls, p.2)

/-- One iteration of the read loop: append the chunk to the buffer, emit the
complete lines, keep the trailing segment as the new buffer. -/
def feedChunk (acc : List (List Char) × List Char) (chunk : List Char) :
    List (List Char) × List Char :=
  let p := splitNl (acc.2 ++ chunk)
  (acc.1 ++ p.1, p.2)

/-- The whole read loop over a chunk sequence, starting from the empty
buffer: all complete lines emitted, and the final buffer content (which the
source discards at end-of-stream). -/
def decodeChunks (chunks : List (List Char)) : List (List Char) × List Char :=
  chunks.foldl feedChunk ([], [])

/-! ## Event parser -/

/-- The frame marker `"data: "` tested with `line.startsWith('data: ')`. -/
def dataMarker : List Char := "data: ".data

/-- Match a literal character sequence at the head of the input and return
the rest. -/
def expectChars (lit s : List Char) : Option (List Char) :=
  if lit.isPrefixOf s then some (s.drop lit.length) else none

/-- Scan a JSON string body up to its closing quote, unescaping `\"`, `\\`
and `\n`; returns the decoded characters and the input after the quote. -/
def scanStr : List Char → Option (List Char × List Char)
  | [] => none
  | '"' :: rest => some ([], rest)
  | '\\' :: '"' :: rest => (scanStr rest).map (fun p => ('"' :: p.1, p.2))
  | '\\' :: '\\' :: rest => (scanStr rest).map (fun p => ('\\' :: p.1, p.2))
  | '\\' :: 'n' :: rest => (scanStr rest).map (fun p => ('\n' :: p.1, p.2))
  | c :: rest => (scanStr rest).map (fun p => (c :: p.1, p.2))

/-- Modelled from the spec: the `JSON.parse` call on a frame payload, which
§6 fixes to the shape `\x7b"type": string, "content": string\x7d`; decode
succeeds exactly on that shape (string escapes `\"`, `\\`, `\n`) and yields
the typed `StreamEvent`, and any other payload is a decode failure. -/
def parseEvent (payload : List Char) : Option StreamEvent :=
  match expectChars ("\x7b\"type\":\"").data payload with
  | none => none
  | some r1 =>
    match scanStr r1 with
    | none => none
    | some (ty, r2) =>
      match expectChars (",\"content\":\"").data r2 with
      | none => none
      | some r3 =>
        match scanStr r3 with
        | none => none
        | some (co, r4) =>
          if r4 = ['\x7d'] then some { type := String.mk ty, content := String.mk co }
          else none

/-- The per-line dispatch of the read loop (lines 157–165): lines without the
`data: ` marker yield no event; marked lines are parsed from the payload
after `line.slice(6)`. -/
def parseLine (line : List Char) : Option StreamEvent :=
  if dataMarker.isPrefixOf line then parseEvent (line.drop 6) else none

/-- Number of parser (`JSON.parse`) invocations a line causes: one when the
marker matches, zero otherwise. -/
def parseCalls (line : List Char) : Nat :=
  if dataMarker.isPrefixOf line then 1 else 0

/-- Events produced from a sequence of complete lines: unmarked lines and
failed decodes contribute nothing. -/
def eventsOfLines (lines : List (List Char)) : List StreamEvent :=
  lines.filterMap parseLine

/-- Folding one complete line into the session: parse and dispatch, or leave
the state untouched when the marker is absent or the decode fails (the source
only logs a diagnostic in that case). -/
def processLine (now : Nat) (s : SessionState) (line : List Char) : SessionState :=
  match parseLine line with
  | some e => handleStreamEvent now s e
  | none => s

/-- Folding a sequence of complete lines into the session. -/
def processLines (now : Nat) (s : SessionState) (lines : List (List Char)) : SessionState :=
  lines.foldl (processLine now) s

/-! ## Timeline simulator

`handleSubmit` (lines 84–121) builds a fixed list of seven timeline entries
and schedules one `setTimeout` callback per entry at `i * 1000` ms. No timer
handle is stored and `handleCancel`/`handleNewAnalysis` call no
`clearTimeout`, so every scheduled callback eventually fires and appends its
entry unconditionally. The scheduler is embedded explicitly: `pending` is the
queue of not-yet-fired callbacks in fire order, and firing one performs
exactly the callback body `setProcessedEventsTimeline(prev => [...prev, e])`. -/

/-- The fixed `timelineEvents` array from `handleSubmit`. -/
def timelineEvents : List ProcessedEvent :=
  [{ title := "Query Classification"
     data := "Analyzing query type and routing to appropriate specialists..." },
   { title := "Domain Expert Analysis"
     data := "Analyzing business logic and domain-specific requirements..." },
   { title := "UX/UI Specialist Analysis"
     data := "Analyzing user experience and interface design requirements..." },
   { title := "Technical Architect Analysis"
     data := "Analyzing technical architecture and implementation requirements..." },
   { title := "Revenue Model Analyst Analysis"
     data := "Analyzing revenue models and monetization strategies..." },
   { title := "Moderator Aggregation"
     data := "Consolidating feedback and resolving conflicts..." },
   { title := "Final Answer Generation"
     data := "Generating comprehensive final answer..." }]

/-- Session state plus the queue of scheduled, not-yet-fired timeline
callbacks (in scheduling order, which equals fire order since the delays are
`i * 1000`). -/
structure AppModel where
  session : SessionState
  pending : List ProcessedEvent
deriving DecidableEq, Repr

/-- Submitting: run the `handleSubmit` prologue and schedule the seven
timeline callbacks. -/
def submitModel (m : AppModel) (text : String) (now : Nat) : AppModel :=
  if jsTrim text = "" then m
  else { session := handleSubmitStart m.session text now, pending := timelineEvents }

/-- Cancelling: `handleCancel` on the session; the source stores no timer
handles and calls no `clearTimeout`, so the pending callbacks survive. -/
def cancelModel (m : AppModel) : AppModel :=
  { session := handleCancel m.session, pending := m.pending }

/-- The earliest pending `setTimeout` callback fires: it appends its captured
entry to the live timeline unconditionally (the callback body has no
staleness check). -/
def fireNextTimer (m : AppModel) : AppModel :=
  match m.pending with
  | [] => m
  | e :: rest =>
    { session :=
        { m.session with
          processedEventsTimeline := m.session.processedEventsTimeline ++ [e] }
      pending := rest }

/-! ## Specification-side recombinators for the accrual claims -/

/-- The closed set of labeled analysis-section tags. -/
def sectionTags : List String :=
  ["domain_expert", "ux_ui_specialist", "technical_architect",
   "revenue_model_analyst", "moderator_aggregation", "final_answer"]

/-- An event carrying one of the labeled analysis-section tags. -/
def isSection (e : StreamEvent) : Bool := e.type ∈ sectionTags

/-- The heading used in the display block for each section tag. -/
def sectionLabel (tag : String) : String :=
  if tag = "domain_expert" then "Domain Expert Analysis"
  else if tag = "ux_ui_specialist" then "UX/UI Specialist Analysis"
  else if tag = "technical_architect" then "Technical Architect Analysis"
  else if tag = "revenue_model_analyst" then "Revenue Model Analyst Analysis"
  else if tag = "moderator_aggregation" then "Moderator Aggregation"
  else "Final Answer"

/-- The labeled display block appended for one section event. -/
def blockOf (e : StreamEvent) : String :=
  "\n\n**" ++ sectionLabel e.type ++ ":**\n" ++ e.content

/-- The display text accumulated by a sequence of section events, one labeled
block per event in arrival order. -/
def displayOf : List StreamEvent → String
  | [] => ""
  | e :: rest => blockOf e ++ displayOf rest

/-- The payload of the last event carrying `tag`, if any. -/
def lastPayload (tag : String) : List StreamEvent → Option String
  | [] => none
  | e :: rest =>
    match lastPayload tag rest with
    | some p => some p
    | none => if e.type = tag then some e.content else none

/-- Last-write-wins on one metadata field. -/
def keepLast (old upd : Option String) : Option String :=
  match upd with
  | some p => some p
  | none => old

/-- The streaming metadata after folding a sequence of section events on top
of `m`: per tag, the last payload seen wins. -/
def sectionsAfter (m : StreamingMetadata) (evs : List StreamEvent) : StreamingMetadata :=
  { domain_analysis := keepLast m.domain_analysis (lastPayload "domain_expert" evs)
    ux_analysis := keepLast m.ux_analysis (lastPayload "ux_ui_specialist" evs)
    technical_analysis := keepLast m.technical_analysis (lastPayload "technical_architect" evs)
    revenue_analysis := keepLast m.revenue_analysis (lastPayload "revenue_model_analyst" evs)
    moderator_aggregation :=
      keepLast m.moderator_aggregation (lastPayload "moderator_aggregation" evs)
    final_answer := keepLast m.final_answer (lastPayload "final_answer" evs) }

/-! ## Turn-creating operation traces -/

/-- The operations of one session lifetime that create turns: a user submit
handled at clock `now`, and a `complete` stream event handled at clock `now`
(the source assigns ids `Date.now().toString()` and
`(Date.now() + 1).toString()` respectively). -/
inductive Op where
  | submit (text : String) (now : Nat)
  | streamComplete (now : Nat)
deriving DecidableEq, Repr

/-- The clock reading at which an operation is handled. -/
def Op.time : Op → Nat
  | .submit _ now => now
  | .streamComplete now => now

/-- Run a sequence of submit/complete operations through the session. -/
def runOps (s : SessionState) : List Op → SessionState
  | [] => s
  | .submit text now :: rest => runOps (handleSubmitStart s text now) rest
  | .streamComplete now :: rest =>
      runOps (handleStreamEvent now s { type := "complete", content := "" }) rest

/-- The numeric ids assigned by a sequence of operations: a non-blank submit
at `t` assigns `t`, a complete at `t` assigns `t + 1`, a blank submit assigns
nothing. -/
def idsOf : List Op → List Nat
  | [] => []
  | .submit text now :: rest =>
      if jsTrim text = "" then idsOf rest else now :: idsOf rest
  | .streamComplete now :: rest => (now + 1) :: idsOf rest

/-! ## Decimal representation: `Nat.repr` is injective -/

/-- The decimal digit characters of `n`, most significant first. -/
def digitsOf (n : Nat) : List Char :=
  if n < 10 then [Nat.digitChar n]
  else digitsOf (n / 10) ++ [Nat.digitChar (n % 10)]
decreasing_by exact Nat.div_lt_self (by omega) (by omega)

/-- `Nat.toDigitsCore` with enough fuel computes `digitsOf` with the
accumulator appended. -/
theorem toDigitsCore_eq_digitsOf :
    ∀ (fuel n : Nat) (acc : List Char), n < fuel →
      Nat.toDigitsCore 10 fuel n acc = digitsOf n ++ acc := by
  intro fuel
  induction fuel with
  | zero => intro n acc h; omega
  | succ f ih =>
    intro n acc h
    rw [Nat.toDigitsCore]
    by_cases h10 : n / 10 = 0
    · have hn : n < 10 := by omega
      have : n % 10 = n := Nat.mod_eq_of_lt hn
      simp [h10, this, digitsOf, hn]
    · have hn : ¬ n < 10 := by omega
      have hlt : n / 10 < f := by
        have := Nat.div_lt_self (show 0 < n by omega) (show 1 < 10 by omega)
        omega
      simp only [h10, if_neg h10]
      rw [ih (n / 10) (Nat.digitChar (n % 10) :: acc) hlt]
      conv_rhs => rw [digitsOf]
      simp [hn]

/-- The characters of `Nat.repr n` are `digitsOf n`. -/
theorem repr_data (n : Nat) : (Nat.repr n).data = digitsOf n := by
  show (Nat.toDigits 10 n).asString.data = digitsOf n
  rw [Nat.toDigits, toDigitsCore_eq_digitsOf (n + 1) n [] (by omega)]
  simp [List.asString]

/-- Numeric value of a decimal digit character. -/
def decVal (c : Char) : Nat := c.toNat - 48

/-- Decode a most-significant-first decimal digit string. -/
def decDigits (l : List Char) : Nat :=
  l.foldl (fun a c => 10 * a + decVal c) 0

theorem decVal_digitChar (k : Nat) (h : k < 10) : decVal (Nat.digitChar k) = k := by
  interval_cases k <;> decide

theorem decDigits_digitsOf (n : Nat) : decDigits (digitsOf n) = n := by
  induction n using Nat.strong_induction_on with
  | _ n ih =>
    rw [digitsOf]
    by_cases h : n < 10
    · simp [h, decDigits, decVal_digitChar n h]
    · have hpos : 0 < n := by omega
      have hlt : n / 10 < n := Nat.div_lt_self hpos (by omega)
      rw [if_neg h]
      have : decDigits (digitsOf (n / 10) ++ [Nat.digitChar (n % 10)]) =
          10 * decDigits (digitsOf (n / 10)) + decVal (Nat.digitChar (n % 10)) := by
        simp [decDigits, List.foldl_append]
      rw [this, ih (n / 10) hlt, decVal_digitChar (n % 10) (Nat.mod_lt n (by omega))]
      omega

/-- Distinct naturals have distinct decimal string representations. -/
theorem repr_inj {m n : Nat} (h : Nat.repr m = Nat.repr n) : m = n := by
  have hd : digitsOf m = digitsOf n := by
    rw [← repr_data, ← repr_data, h]
  calc m = decDigits (digitsOf m) := (decDigits_digitsOf m).symm
    _ = decDigits (digitsOf n) := by rw [hd]
    _ = n := decDigits_digitsOf n

/-! ## Frame-decoder lemmas -/

/-- A newline-free text splits into no complete line and itself as trailing
segment. -/
theorem splitNl_of_no_newline (l : List Char) (h : '\n' ∉ l) : splitNl l = ([], l) := by
  induction l with
  | nil => rfl
  | cons c cs ih =>
    have hc : c ≠ '\n' := fun hc => h (hc ▸ List.mem_cons_self c cs)
    have hcs : '\n' ∉ cs := fun hm => h (List.mem_cons_of_mem c hm)
    simp [splitNl, hc, ih hcs]

/-- The trailing segment returned by `splitNl` contains no newline. -/
theorem splitNl_snd_no_newline (l : List Char) : '\n' ∉ (splitNl l).2 := by
  induction l with
  | nil => simp [splitNl]
  | cons c cs ih =>
    by_cases hc : c = '\n'
    · simp [splitNl, hc, ih]
    · rcases hp : splitNl cs with ⟨p1, p2⟩
      rw [hp] at ih
      cases p1 with
      | nil =>
        simp only [splitNl, hp, if_neg hc]
        intro hmem
        rcases List.mem_cons.mp hmem with h1 | h2
        · exact hc h1.symm
        · exact ih h2
      | cons l ls => simp [splitNl, hp, hc, ih]

/-- Gluing: splitting `a ++ b` yields the complete lines of `a`, then the
split of `a`'s trailing segment continued by `b`. -/
theorem splitNl_append (a b : List Char) :
    splitNl (a ++ b) =
      ((splitNl a).1 ++ (splitNl ((splitNl a).2 ++ b)).1,
       (splitNl ((splitNl a).2 ++ b)).2) := by
  induction a with
  | nil => simp [splitNl]
  | cons c a' ih =>
    by_cases hc : c = '\n'
    · subst hc
      simp only [List.cons_append, splitNl, List.append_eq, if_true, eq_self_iff_true]
      rw [ih]
    · rcases hpa : splitNl a' with ⟨pa1, pa2⟩
      rw [hpa] at ih
      rcases hX : splitNl (pa2 ++ b) with ⟨X1, X2⟩
      rw [hX] at ih
      simp only [List.cons_append, splitNl, List.append_eq, if_neg hc]
      rw [ih, hpa]
      cases pa1 with
      | nil =>
        simp only [List.nil_append]
        cases X1 with
        | nil => simp [splitNl, hc, hX]
        | cons l ls => simp [splitNl, hc, hX]
      | cons l ls =>
        simp [hX]

/-- The read loop from an arbitrary newline-free buffer: emitted lines and
final buffer are those of the buffer followed by the whole remaining stream. -/
theorem foldl_feedChunk (chunks : List (List Char)) :
    ∀ (out : List (List Char)) (buf : List Char), '\n' ∉ buf →
      chunks.foldl feedChunk (out, buf) =
        (out ++ (splitNl (buf ++ chunks.flatten)).1, (splitNl (buf ++ chunks.flatten)).2) := by
  induction chunks with
  | nil =>
    intro out buf h
    simp [splitNl_of_no_newline buf h]
  | cons chunk rest ih =>
    intro out buf h
    have hstep : feedChunk (out, buf) chunk =
        (out ++ (splitNl (buf ++ chunk)).1, (splitNl (buf ++ chunk)).2) := rfl
    rw [List.foldl_cons, hstep,
      ih (out ++ (splitNl (buf ++ chunk)).1) (splitNl (buf ++ chunk)).2
        (splitNl_snd_no_newline (buf ++ chunk))]
    have key := splitNl_append (buf ++ chunk) rest.flatten
    rw [List.flatten_cons, ← List.append_assoc buf chunk rest.flatten, key]
    simp [List.append_assoc]

/-- Partition invariance of the frame decoder: however the byte stream is cut
into chunks, the loop emits exactly the newline-terminated lines of the full
stream, and the buffer retains exactly the trailing unterminated segment. -/
theorem decodeChunks_eq (chunks : List (List Char)) :
    decodeChunks chunks = splitNl chunks.flatten := by
  rw [decodeChunks, foldl_feedChunk chunks [] [] (by simp)]
  simp

/-! ## Accrual lemmas -/

theorem keepLast_assoc (a b : Option String) (l : Option String) :
    keepLast a (keepLast b l) = keepLast (keepLast a b) l := by
  cases l <;> cases b <;> rfl

theorem keepLast_some (a : Option String) (c : String) : keepLast a (some c) = some c := rfl

theorem keepLast_none_right (a : Option String) : keepLast a none = a := rfl

/-- `lastPayload` over a cons, phrased through `keepLast`. -/
theorem lastPayload_cons (tag : String) (e : StreamEvent) (rest : List StreamEvent) :
    lastPayload tag (e :: rest) =
      keepLast (if e.type = tag then some e.content else none) (lastPayload tag rest) := by
  cases h : lastPayload tag rest <;> simp [lastPayload, keepLast, h]

theorem foldEvents_cons (now : Nat) (s : SessionState) (e : StreamEvent)
    (evs : List StreamEvent) :
    foldEvents now s (e :: evs) = foldEvents now (handleStreamEvent now s e) evs := rfl

/-- Folding a sequence of labeled-section events appends one labeled block
per event, in arrival order, to the display text, and updates the metadata
mapping last-write-wins per tag; nothing else in the session changes. -/
theorem foldEvents_sections (now : Nat) :
    ∀ (evs : List StreamEvent), (∀ e ∈ evs, isSection e = true) →
      ∀ (s : SessionState),
        foldEvents now s evs =
          { s with
            currentStreamingMessage := s.currentStreamingMessage ++ displayOf evs
            streamingMetadata := sectionsAfter s.streamingMetadata evs } := by
  intro evs
  induction evs with
  | nil =>
    intro _ s
    simp [foldEvents, displayOf, sectionsAfter, keepLast, lastPayload]
  | cons e rest ih =>
    intro hall s
    have he : isSection e = true := hall e (List.mem_cons_self e rest)
    have hrest : ∀ e' ∈ rest, isSection e' = true := fun e' h' =>
      hall e' (List.mem_cons_of_mem e h')
    obtain ⟨ty, co⟩ := e
    have hty : ty = "domain_expert" ∨ ty = "ux_ui_specialist" ∨
        ty = "technical_architect" ∨ ty = "revenue_model_analyst" ∨
        ty = "moderator_aggregation" ∨ ty = "final_answer" := by
      simpa [isSection, sectionTags] using he
    rw [foldEvents_cons, ih hrest]
    rcases hty with h | h | h | h | h | h <;> subst h <;>
      simp [handleStreamEvent, displayOf, blockOf, sectionLabel, sectionsAfter,
        lastPayload_cons, keepLast_assoc, keepLast_some, keepLast_none_right,
        String.append_assoc]

theorem keepLast_none_left (l : Option String) : keepLast none l = l := by
  cases l <;> rfl

/-- A nonempty sequence of section events accumulates nonempty display text
(every block begins with two newlines). -/
theorem displayOf_cons_ne_empty (e : StreamEvent) (rest : List StreamEvent) :
    displayOf (e :: rest) ≠ "" := by
  intro h
  have hd := congrArg String.data h
  simp only [displayOf, blockOf, String.data_append] at hd
  simp at hd

/-! ## Turn-id lemmas -/

/-- Every id assigned by a trace is at least the clock time of some operation
in the trace. -/
theorem idsOf_mem_time : ∀ (ops : List Op), ∀ n ∈ idsOf ops, ∃ o, o ∈ ops ∧ o.time ≤ n := by
  intro ops
  induction ops with
  | nil => intro n hn; cases hn
  | cons op rest ih =>
    intro n hn
    cases op with
    | submit text now =>
      by_cases hb : jsTrim text = ""
      · simp only [idsOf, if_pos hb] at hn
        obtain ⟨o, ho, hle⟩ := ih n hn
        exact ⟨o, List.mem_cons_of_mem _ ho, hle⟩
      · simp only [idsOf, if_neg hb] at hn
        rcases List.mem_cons.mp hn with h | hn'
        · exact ⟨Op.submit text now, List.mem_cons_self _ _, by rw [h]; simp [Op.time]⟩
        · obtain ⟨o, ho, hle⟩ := ih n hn'
          exact ⟨o, List.mem_cons_of_mem _ ho, hle⟩
    | streamComplete now =>
      simp only [idsOf] at hn
      rcases List.mem_cons.mp hn with h | hn'
      · exact ⟨Op.streamComplete now, List.mem_cons_self _ _, by rw [h]; simp [Op.time]⟩
      · obtain ⟨o, ho, hle⟩ := ih n hn'
        exact ⟨o, List.mem_cons_of_mem _ ho, hle⟩

/-- In a trace whose consecutive clock readings are at least 2 apart, the
head operation's time is at least 2 below every later operation's time. -/
theorem chain_gap_le : ∀ (rest : List Op) (op : Op),
    List.Chain' (fun a b => a.time + 2 ≤ b.time) (op :: rest) →
    ∀ o ∈ rest, op.time + 2 ≤ o.time := by
  intro rest
  induction rest with
  | nil => intro op _ o ho; cases ho
  | cons o2 rest' ih =>
    intro op h o ho
    have h12 : op.time + 2 ≤ o2.time := (List.chain'_cons.mp h).1
    have h2 : List.Chain' (fun a b => a.time + 2 ≤ b.time) (o2 :: rest') :=
      (List.chain'_cons.mp h).2
    rcases List.mem_cons.mp ho with rfl | ho'
    · exact h12
    · have := ih o2 h2 o ho'
      omega

/-- With clock gaps of at least 2 between consecutive operations, the
numeric ids of a trace are strictly increasing. -/
theorem idsOf_pairwise_lt : ∀ (ops : List Op),
    List.Chain' (fun a b => a.time + 2 ≤ b.time) ops →
    List.Pairwise (· < ·) (idsOf ops) := by
  intro ops
  induction ops with
  | nil => intro _; exact List.Pairwise.nil
  | cons op rest ih =>
    intro h
    have htail : List.Chain' (fun a b => a.time + 2 ≤ b.time) rest := h.tail
    have hlt : ∀ n ∈ idsOf rest, op.time + 1 < n := by
      intro n hn
      obtain ⟨o, ho, hle⟩ := idsOf_mem_time rest n hn
      have := chain_gap_le rest op h o ho
      omega
    have hrest := ih htail
    cases op with
    | submit text now =>
      by_cases hb : jsTrim text = ""
      · simpa [idsOf, hb] using hrest
      · simp only [idsOf, if_neg hb]
        refine List.pairwise_cons.mpr ⟨?_, hrest⟩
        intro n hn
        have := hlt n hn
        simp only [Op.time] at this
        omega
    | streamComplete now =>
      simp only [idsOf]
      refine List.pairwise_cons.mpr ⟨?_, hrest⟩
      intro n hn
      have := hlt n hn
      simp only [Op.time] at this
      omega

/-- The turn ids accumulated by a trace: prior ids, then the decimal strings
of the assigned numeric ids, in order. -/
theorem runOps_ids : ∀ (ops : List Op) (s : SessionState),
    (runOps s ops).messages.map Message.id =
      s.messages.map Message.id ++ (idsOf ops).map Nat.repr := by
  intro ops
  induction ops with
  | nil => intro s; simp [runOps, idsOf]
  | cons op rest ih =>
    intro s
    cases op with
    | submit text now =>
      by_cases hb : jsTrim text = ""
      · simp only [runOps, idsOf, if_pos hb]
        rw [ih, handleSubmitStart, if_pos hb]
      · simp only [runOps, idsOf, if_neg hb]
        rw [ih, handleSubmitStart, if_neg hb]
        simp
    | streamComplete now =>
      simp only [runOps, idsOf]
      rw [ih]
      simp [handleStreamEvent]

theorem foldEvents_append (now : Nat) (s : SessionState)
    (evs1 evs2 : List StreamEvent) :
    foldEvents now s (evs1 ++ evs2) = foldEvents now (foldEvents now s evs1) evs2 := by
  simp [foldEvents, List.foldl_append]

/-! ## Claim theorems -/

/-- C1: folding any sequence of labeled analysis-section events into a
freshly submitted session and then a `complete` event appends exactly one
assistant turn whose metadata holds exactly the last payload seen for each
tag, and whose content is the accumulated display text — one labeled block
per section event in arrival order — or exactly "Analysis completed" when
the accumulated text is empty at `complete`. -/
theorem section_events_then_complete (now : Nat) (s : SessionState)
    (evs : List StreamEvent) (c : String)
    (hall : ∀ e ∈ evs, isSection e = true)
    (hmsg : s.currentStreamingMessage = "")
    (hmeta : s.streamingMetadata = {}) :
    (foldEvents now s (evs ++ [{ type := "complete", content := c }])).messages =
      s.messages ++
        [{ type := Role.ai
           content := if evs.isEmpty then "Analysis completed" else displayOf evs
           id := Nat.repr (now + 1)
           metadata := some
             { sections :=
                 { domain_analysis := lastPayload "domain_expert" evs
                   ux_analysis := lastPayload "ux_ui_specialist" evs
                   technical_analysis := lastPayload "technical_architect" evs
                   revenue_analysis := lastPayload "revenue_model_analyst" evs
                   moderator_aggregation := lastPayload "moderator_aggregation" evs
                   final_answer := lastPayload "final_answer" evs }
               processing_time := 0
               query_type := "general" } }] := by
  rw [foldEvents_append, foldEvents_sections now evs hall s, hmsg, hmeta]
  cases evs with
  | nil =>
    simp [foldEvents, handleStreamEvent, displayOf, sectionsAfter, lastPayload,
      keepLast_none_left]
  | cons e rest =>
    have hne := displayOf_cons_ne_empty e rest
    simp [foldEvents, handleStreamEvent, sectionsAfter, keepLast_none_left, hne]

/-- C1 witness: the spec scenario — one `domain_expert` payload then
`complete` — evaluated concretely. -/
theorem section_events_then_complete_witness :
    (foldEvents 5 initialState
        [{ type := "domain_expert", content := "Needs CRUD" },
         { type := "complete", content := "" }]).messages =
      [{ type := Role.ai
         content := "\n\n**Domain Expert Analysis:**\nNeeds CRUD"
         id := "6"
         metadata := some
           { sections := { domain_analysis := some "Needs CRUD" }
             processing_time := 0
             query_type := "general" } }] := by
  have h := section_events_then_complete 5 initialState
      [{ type := "domain_expert", content := "Needs CRUD" }] "" (by decide) rfl rfl
  simpa [displayOf, blockOf, sectionLabel, lastPayload, initialState,
    show Nat.repr 6 = "6" from rfl] using h

/-- C2: frame decoding is invariant under the partition of the byte stream
into chunks — the emitted complete lines, and hence the parsed events, are
exactly those of the newline-split of the whole stream; the trailing
unterminated segment is only buffered, never emitted; and the split-frame
example reassembles into exactly one parsed `message` event. -/
theorem frame_decoder_reassembles (chunks : List (List Char)) :
    (decodeChunks chunks).1 = (splitNl chunks.flatten).1 ∧
    (decodeChunks chunks).2 = (splitNl chunks.flatten).2 ∧
    eventsOfLines (decodeChunks chunks).1 = eventsOfLines (splitNl chunks.flatten).1 ∧
    eventsOfLines
        (decodeChunks ["data: \x7b\"type\":\"message\",\"content\":\"hi".data,
          "\"\x7d\n".data]).1 =
      [{ type := "message", content := "hi" }] := by
  refine ⟨?_, ?_, ?_, ?_⟩
  · rw [decodeChunks_eq]
  · rw [decodeChunks_eq]
  · rw [decodeChunks_eq]
  · decide

/-- C3: a line without the `data: ` marker causes zero parser invocations
and leaves the session unchanged (it is not an error); a marked line whose
payload fails structured decode is dropped, leaving the session unchanged;
and either kind of dropped line does not stop the fold over the remaining
lines. -/
theorem bad_lines_are_inert (now : Nat) (s : SessionState) (line : List Char)
    (ls1 ls2 : List (List Char)) :
    (dataMarker.isPrefixOf line = false →
      parseCalls line = 0 ∧ processLine now s line = s) ∧
    (dataMarker.isPrefixOf line = true → parseEvent (line.drop 6) = none →
      processLine now s line = s) ∧
    (parseLine line = none →
      processLines now s (ls1 ++ line :: ls2) = processLines now s (ls1 ++ ls2)) := by
  refine ⟨?_, ?_, ?_⟩
  · intro h
    exact ⟨by simp [parseCalls, h], by simp [processLine, parseLine, h]⟩
  · intro h1 h2
    simp [processLine, parseLine, h1, h2]
  · intro h
    simp only [processLines, List.foldl_append, List.foldl_cons]
    congr 1
    simp [processLine, h]

/-- C3 witness: an unmarked line and an undecodable marked line, each inert,
and an unmarked line interleaved between two valid frames not halting the
fold. -/
theorem bad_lines_are_inert_witness :
    (parseCalls "not-a-data-line".data = 0 ∧
      processLine 0 initialState "not-a-data-line".data = initialState) ∧
    processLine 0 initialState "data: oops".data = initialState ∧
    processLines 0 initialState
        ["data: \x7b\"type\":\"error\",\"content\":\"x\"\x7d".data,
         "not-a-data-line".data,
         "data: \x7b\"type\":\"complete\",\"content\":\"\"\x7d".data] =
      processLines 0 initialState
        ["data: \x7b\"type\":\"error\",\"content\":\"x\"\x7d".data,
         "data: \x7b\"type\":\"complete\",\"content\":\"\"\x7d".data] := by
  refine ⟨(bad_lines_are_inert 0 initialState "not-a-data-line".data [] []).1 (by decide),
    (bad_lines_are_inert 0 initialState "data: oops".data [] []).2.1 (by decide) (by decide),
    ?_⟩
  have h := (bad_lines_are_inert 0 initialState "not-a-data-line".data
      ["data: \x7b\"type\":\"error\",\"content\":\"x\"\x7d".data]
      ["data: \x7b\"type\":\"complete\",\"content\":\"\"\x7d".data]).2.2 (by decide)
  simpa using h

/-- C4: with a request in flight, an `error` stream event — followed by the
request's `finally` finalisation — sets the session error to exactly the
event payload, clears the in-flight flag, and appends no assistant turn. -/
theorem error_event_outcome (now : Nat) (s : SessionState) (txt : String)
    (_hload : s.isLoading = true) :
    (finishRequest (handleStreamEvent now s { type := "error", content := txt })).error
        = some txt ∧
    (finishRequest (handleStreamEvent now s { type := "error", content := txt })).isLoading
        = false ∧
    (finishRequest (handleStreamEvent now s { type := "error", content := txt })).messages
        = s.messages := by
  refine ⟨?_, ?_, ?_⟩ <;> simp [handleStreamEvent, finishRequest]

/-- C4 witness: the error scenario at concrete inputs. -/
theorem error_event_outcome_witness :
    (finishRequest (handleStreamEvent 0 { initialState with isLoading := true }
        { type := "error", content := "rate limited" })).error = some "rate limited" ∧
    (finishRequest (handleStreamEvent 0 { initialState with isLoading := true }
        { type := "error", content := "rate limited" })).isLoading = false ∧
    (finishRequest (handleStreamEvent 0 { initialState with isLoading := true }
        { type := "error", content := "rate limited" })).messages =
      ({ initialState with isLoading := true } : SessionState).messages :=
  error_event_outcome 0 { initialState with isLoading := true } "rate limited" rfl

/-- C5 (the code violates the claim): submit schedules the timeline
callbacks; cancel clears the live timeline but the source keeps no timer
handles, calls no `clearTimeout`, and the callback body has no staleness
check — so the next scheduled callback still fires and appends its stage
entry to the cancelled session's timeline. -/
theorem stale_timer_mutates_after_cancel :
    (cancelModel (submitModel { session := initialState, pending := [] }
        "Build a todo app" 0)).session.processedEventsTimeline = [] ∧
    (fireNextTimer (cancelModel (submitModel { session := initialState, pending := [] }
        "Build a todo app" 0))).session.processedEventsTimeline =
      [{ title := "Query Classification"
         data := "Analyzing query type and routing to appropriate specialists..." }] := by
  constructor
  · decide
  · decide

/-- C6: `handleCancel` always returns in-flight to false, clears the live
timeline, the error, and the streaming accrual, and leaves the turn list and
the historical timeline map unchanged. -/
theorem cancel_effects (s : SessionState) :
    (handleCancel s).isLoading = false ∧
    (handleCancel s).processedEventsTimeline = [] ∧
    (handleCancel s).error = none ∧
    (handleCancel s).currentStreamingMessage = "" ∧
    (handleCancel s).streamingMetadata = {} ∧
    (handleCancel s).messages = s.messages ∧
    (handleCancel s).historicalActivities = s.historicalActivities :=
  ⟨rfl, rfl, rfl, rfl, rfl, rfl, rfl⟩

/-- C7: `handleNewAnalysis` resets every part of the session regardless of
the prior state: no turns, empty live and historical timelines, no error,
empty streaming accrual, not in flight. -/
theorem reset_clears_everything (s : SessionState) :
    (handleNewAnalysis s).messages = [] ∧
    (handleNewAnalysis s).processedEventsTimeline = [] ∧
    (handleNewAnalysis s).historicalActivities = [] ∧
    (handleNewAnalysis s).error = none ∧
    (handleNewAnalysis s).currentStreamingMessage = "" ∧
    (handleNewAnalysis s).streamingMetadata = {} ∧
    (handleNewAnalysis s).isLoading = false :=
  ⟨rfl, rfl, rfl, rfl, rfl, rfl, rfl⟩

/-- C8: submitting a blank (empty or whitespace-only) string is a no-op on
the session; submitting any other string appends exactly one user turn with
that content, clears the streaming accrual, clears the error, and sets the
in-flight flag. -/
theorem submit_effects (s : SessionState) (text : String) (now : Nat) :
    (jsTrim text = "" → handleSubmitStart s text now = s) ∧
    (jsTrim text ≠ "" →
      (handleSubmitStart s text now).messages =
        s.messages ++
          [{ type := Role.human, content := text, id := Nat.repr now, metadata := none }] ∧
      (handleSubmitStart s text now).currentStreamingMessage = "" ∧
      (handleSubmitStart s text now).streamingMetadata = {} ∧
      (handleSubmitStart s text now).error = none ∧
      (handleSubmitStart s text now).isLoading = true) := by
  constructor
  · intro h
    simp [handleSubmitStart, h]
  · intro h
    simp [handleSubmitStart, h]

/-- C8 witness: a whitespace-only submit is a no-op; a real submit appends
the user turn and sets the flags. -/
theorem submit_effects_witness :
    handleSubmitStart initialState "   " 7 = initialState ∧
    (handleSubmitStart initialState "Build a todo app" 7).messages =
      [{ type := Role.human, content := "Build a todo app", id := Nat.repr 7, metadata := none }] ∧
    (handleSubmitStart initialState "Build a todo app" 7).isLoading = true := by
  have h1 := (submit_effects initialState "   " 7).1 (by decide)
  have h2 := (submit_effects initialState "Build a todo app" 7).2 (by decide)
  exact ⟨h1, by simpa [initialState] using h2.1, h2.2.2.2.2⟩

/-- C9 (refuted as stated): ids come from the millisecond clock, so two
submit operations handled at the same clock reading are assigned the same
turn id — turn ids are not pairwise distinct for every operation sequence. -/
theorem turn_id_collision :
    ((runOps initialState [Op.submit "a" 0, Op.submit "b" 0]).messages.map Message.id) =
      ["0", "0"] ∧
    ¬ ((runOps initialState [Op.submit "a" 0, Op.submit "b" 0]).messages.map
        Message.id).Nodup := by
  constructor
  · decide
  · decide

/-- C9 amended: turn ids are pairwise distinct provided consecutive
operations' clock readings are at least 2 apart (a submit at `t` takes id
`t`, a complete at `t` takes id `t + 1`). -/
theorem turn_ids_distinct (ops : List Op)
    (h : List.Chain' (fun a b => a.time + 2 ≤ b.time) ops) :
    ((runOps initialState ops).messages.map Message.id).Nodup := by
  rw [runOps_ids]
  have hp := idsOf_pairwise_lt ops h
  have hnd : (idsOf ops).Nodup := hp.imp (fun hlt => Nat.ne_of_lt hlt)
  have hmap : ((idsOf ops).map Nat.repr).Nodup :=
    hnd.map (fun a b hab => repr_inj hab)
  simpa [initialState] using hmap

/-- C9 amended witness: a spaced trace gets pairwise distinct ids. -/
theorem turn_ids_distinct_witness :
    ((runOps initialState
        [Op.submit "Build a todo app" 0, Op.streamComplete 2,
         Op.submit "again" 10]).messages.map Message.id).Nodup :=
  turn_ids_distinct
    [Op.submit "Build a todo app" 0, Op.streamComplete 2, Op.submit "again" 10]
    (by simp [List.chain'_cons, Op.time])

/-- C10: folding an `error` event changes only the session's error text —
turn list, streaming text, metadata, live timeline, and historical map are
untouched — and later events in the same stream are still folded: a
subsequent `complete` still appends an assistant turn. -/
theorem error_event_is_localized (now : Nat) (s : SessionState) (txt : String)
    (rest : List StreamEvent) :
    handleStreamEvent now s { type := "error", content := txt } =
      { s with error := some txt } ∧
    foldEvents now s ({ type := "error", content := txt } :: rest) =
      foldEvents now { s with error := some txt } rest ∧
    (foldEvents now s [{ type := "error", content := txt },
        { type := "complete", content := "" }]).messages.length =
      s.messages.length + 1 := by
  have h1 : handleStreamEvent now s { type := "error", content := txt } =
      { s with error := some txt } := by
    simp [handleStreamEvent]
  refine ⟨h1, ?_, ?_⟩
  · rw [foldEvents_cons, h1]
  · simp [foldEvents, handleStreamEvent]

end HackWave
